import Mathlib

/-!
# Verification of the urlshortener reconciliation and authorization core

A shallow embedding, in Lean 4, of the authorization-aware ShortLink CRUD
client (`pkg/client/authenticated_shortlink_client.go` on top of the typed
`ShortlinkClient`), the ingress synthesizer (`pkg/redirect`), the Redirect
reconciler (`controllers/redirect_controller.go`), and the bearer-token gate
of the HTTP handlers (`pkg/controller/handle_*_shortlink.go`).

The backing Kubernetes object store is modelled as an explicit state value
(a list of objects) threaded through every operation; fallible store calls
return `Except Err`.
-/

namespace Urlshortener

/-- Errors surfaced by the (modelled) object store and by the clients.
`authorization` is the AuthorizationError of the spec's error taxonomy;
it is present so that statements about it are expressible, even though the
code under `src/` never constructs one. -/
inductive Err where
  | notFound
  | alreadyExists
  | transient (msg : String)
  | authorization (username operation resource : String)
deriving Repr, DecidableEq

/-! ## ShortLink data model

`ShortLinkSpec.target`, `redirectAfter` and `code` are from
`api/v1alpha1/shortlink_types.go`. The Go definitions of the `owner` /
`coOwners` spec fields, the `changedBy` status field and the `IsOwnedBy`
method are not under `src/` (only the CRD declaration and their callers
are), so those are modelled from the spec (see the doc comments below). -/

/-- ShortLinkSpec (from `api/v1alpha1/shortlink_types.go`).
The fields `owner` and `coOwners` are modelled from the spec:
the Go source of this iteration of `ShortLinkSpec` is missing from `src/`;
`owner` is the creator identity and `coOwners` the additional identities
permitted to modify (spec section 3). -/
structure ShortLinkSpec where
  target : String
  redirectAfter : Int
  code : Int
  owner : String
  coOwners : List String
deriving Repr, DecidableEq

/-- ShortLinkStatus: `count` from `api/v1alpha1/shortlink_types.go`;
`changedBy` is modelled from the spec (identity of the last mutating
writer), its Go definition being absent from `src/`. -/
structure ShortLinkStatus where
  count : Int
  changedBy : String
deriving Repr, DecidableEq

/-- A ShortLink object: name (metadata) plus spec and status. -/
structure ShortLink where
  name : String
  spec : ShortLinkSpec
  status : ShortLinkStatus
deriving Repr, DecidableEq

/-- Modelled from the spec: `IsOwnedBy(user) = (user == owner) OR
(user ∈ coOwners)` (spec section 4.3); the Go method is not under `src/`
(only its callers in `authenticated_shortlink_client.go` are). -/
def ShortLink.IsOwnedBy (s : ShortLink) (username : String) : Bool :=
  s.spec.owner = username || s.spec.coOwners.contains username

/-! ## The modelled object store for ShortLinks

One namespace; objects keyed by name. The typed `ShortlinkClient`
(`pkg/client/shortlink_client.go`, unnamed part with Create/Update/
UpdateStatus/Delete) is a thin wrapper over the store client, so its
operations are modelled directly as state transitions. -/

/-- The backing store: the current list of ShortLink objects. -/
structure Store where
  items : List ShortLink
deriving Repr, DecidableEq

/-- Find a stored object by name (the store's `Get`). -/
def Store.find (st : Store) (name : String) : Option ShortLink :=
  st.items.find? (fun s => s.name = name)

/-- `ShortlinkClient.Get`: fetch by name, `notFound` when absent. -/
def clientGet (st : Store) (name : String) : Except Err ShortLink :=
  match st.find name with
  | some s => .ok s
  | none => .error .notFound

/-- `ShortlinkClient.List`: the full list of stored objects. -/
def clientList (st : Store) : Except Err (List ShortLink) :=
  .ok st.items

/-- `ShortlinkClient.Create`: error when an object of that name exists,
otherwise append. -/
def clientCreate (st : Store) (s : ShortLink) : Except Err Unit × Store :=
  match st.find s.name with
  | some _ => (.error .alreadyExists, st)
  | none => (.ok (), ⟨st.items ++ [s]⟩)

/-- `ShortlinkClient.Update`: replace the spec of the stored object of the
same name (a main-resource update does not touch the status subresource);
`notFound` when absent. -/
def clientUpdate (st : Store) (s : ShortLink) : Except Err Unit × Store :=
  match st.find s.name with
  | some _ =>
    (.ok (), ⟨st.items.map (fun x => if x.name = s.name then { x with spec := s.spec } else x)⟩)
  | none => (.error .notFound, st)

/-- `ShortlinkClient.UpdateStatus`: replace the status of the stored object
of the same name (the status-subresource write path); `notFound` when
absent. -/
def clientUpdateStatus (st : Store) (s : ShortLink) : Except Err Unit × Store :=
  match st.find s.name with
  | some _ =>
    (.ok (), ⟨st.items.map (fun x => if x.name = s.name then { x with status := s.status } else x)⟩)
  | none => (.error .notFound, st)

/-- `ShortlinkClient.Delete`: remove the stored object of that name;
`notFound` when absent. -/
def clientDelete (st : Store) (s : ShortLink) : Except Err Unit × Store :=
  match st.find s.name with
  | some _ => (.ok (), ⟨st.items.filter (fun x => x.name ≠ s.name)⟩)
  | none => (.error .notFound, st)

/-! ## The authorization wrapper (ShortlinkClientAuth)

Translated from `pkg/client/authenticated_shortlink_client.go`. -/

/-- `ShortlinkClientAuth.List`: list everything, then keep (in order, by
appending to a fresh empty list) the entries owned by the caller. -/
def authList (st : Store) (username : String) : Except Err (List ShortLink) :=
  match clientList st with
  | .error e => .error e
  | .ok items =>
    .ok (items.foldl (fun acc s => if s.IsOwnedBy username then acc ++ [s] else acc) [])

/-- `ShortlinkClientAuth.Get`: fetch by name; when the caller does not own
the result, return `ok none` — the Go code's `return nil, nil`. -/
def authGet (st : Store) (username name : String) : Except Err (Option ShortLink) :=
  match clientGet st name with
  | .error e => .error e
  | .ok shortLink =>
    if !shortLink.IsOwnedBy username then .ok none
    else .ok (some shortLink)

/-- `ShortlinkClientAuth.Create`: unconditionally overwrite `spec.owner`
with the caller, then delegate to the client's create. -/
def authCreate (st : Store) (username : String) (shortLink : ShortLink) :
    Except Err Unit × Store :=
  clientCreate st { shortLink with spec := { shortLink.spec with owner := username } }

/-- `ShortlinkClientAuth.Update`: a caller who is not the owner is first
added to `coOwners` (if not already there); then the spec is updated, and
on success `status.changedBy` is set to the caller and the status is
written through the separate status path. -/
def authUpdate (st : Store) (username : String) (shortLink : ShortLink) :
    Except Err Unit × Store :=
  let shortLink :=
    if shortLink.spec.owner ≠ username ∧ ¬ shortLink.spec.coOwners.contains username then
      { shortLink with spec := { shortLink.spec with coOwners := shortLink.spec.coOwners ++ [username] } }
    else shortLink
  match clientUpdate st shortLink with
  | (.error e, st₂) => (.error e, st₂)
  | (.ok _, st₂) =>
    clientUpdateStatus st₂ { shortLink with status := { shortLink.status with changedBy := username } }

/-- `ShortlinkClientAuth.Delete`: when the caller does not own the object,
return a nil error without touching the store; otherwise delegate to the
client's delete. -/
def authDelete (st : Store) (username : String) (shortLink : ShortLink) :
    Except Err Unit × Store :=
  if !shortLink.IsOwnedBy username then (.ok (), st)
  else clientDelete st shortLink

/-! ## Redirect data model

From `api/v1alpha1/redirect_types.go` (the variant with TLS and
ingressClassName, used by `pkg/redirect` and the Redirect reconciler). -/

/-- TLSSpec: `enable` plus free-form annotations (a Go `map[string]string`,
modelled as an association list with pairwise-distinct keys). -/
structure TLSSpec where
  enable : Bool
  annos : List (String × String)
deriving Repr, DecidableEq

/-- RedirectSpec from `api/v1alpha1/redirect_types.go`. -/
structure RedirectSpec where
  source : String
  target : String
  code : Int
  tls : TLSSpec
  ingressClassName : String
deriving Repr, DecidableEq

/-- RedirectStatus from `api/v1alpha1/redirect_types.go`. -/
structure RedirectStatus where
  target : String
  ingressName : List String
deriving Repr, DecidableEq

/-- A Redirect object: namespaced name plus spec and status. -/
structure Redirect where
  name : String
  nspace : String
  spec : RedirectSpec
  status : RedirectStatus
deriving Repr, DecidableEq

/-! ## Ingress model (the slice of `networking.k8s.io/v1` the code uses) -/

/-- One TLS entry of an ingress spec. -/
structure IngressTLS where
  hosts : List String
  secretName : String
deriving Repr, DecidableEq

/-- The backend of an HTTP path: service name and port number. -/
structure IngressBackend where
  serviceName : String
  servicePort : Int
deriving Repr, DecidableEq

/-- One HTTP path of an ingress rule. -/
structure HTTPIngressPath where
  path : String
  pathType : String
  backend : IngressBackend
deriving Repr, DecidableEq

/-- One host rule of an ingress spec. -/
structure IngressRule where
  host : String
  paths : List HTTPIngressPath
deriving Repr, DecidableEq

/-- The ingress spec. -/
structure IngressSpec where
  ingressClassName : Option String
  rules : List IngressRule
  tls : List IngressTLS
deriving Repr, DecidableEq

/-- The object metadata the code touches: name, namespace, labels,
annotations (Go string maps as association lists) and owner references
(owner name/namespace pairs, set by `ctrl.SetControllerReference`). -/
structure ObjectMeta where
  name : String
  nspace : String
  labels : List (String × String)
  annos : List (String × String)
  ownerRefs : List (String × String)
deriving Repr, DecidableEq

/-- An ingress object. `residualStatus` stands for the parts of a
`networkingv1.Ingress` (TypeMeta, Status) that `NewRedirectIngress` does
NOT overwrite: they survive from the `existing` argument. -/
structure Ingress where
  metadata : ObjectMeta
  spec : IngressSpec
  residualStatus : List String
deriving Repr, DecidableEq

/-- The zero `networkingv1.Ingress{}` value. -/
def emptyIngress : Ingress :=
  { metadata := { name := "", nspace := "", labels := [], annos := [], ownerRefs := [] }
  , spec := { ingressClassName := none, rules := [], tls := [] }
  , residualStatus := [] }

/-- `strings.ReplaceAll(s, string(a), string(b))` for a one-character
pattern: replace every occurrence of the character `a` by `b`. -/
def replaceAllChar (s : String) (a b : Char) : String :=
  ⟨s.data.map (fun c => if c = a then b else c)⟩

/-- Setting a key of a Go `map[string]string`: overwrite the entry of that
key when present, otherwise append the new binding. -/
def mapSet : List (String × String) → String → String → List (String × String)
  | [], k, v => [(k, v)]
  | p :: rest, k, v => if p.1 = k then (k, v) :: rest else p :: mapSet rest k v

/-! ## The ingress synthesizer (`pkg/redirect`) -/

/-- `GetLabelsForRedirect`: the fixed label map
`{app: urlshortener, redirect: <name>}`. -/
def GetLabelsForRedirect (name : String) : List (String × String) :=
  [("app", "urlshortener"), ("redirect", name)]

/-- `GetIngressNames`: project a list of ingresses to their names,
preserving order. -/
def GetIngressNames (ingresses : List Ingress) : List String :=
  ingresses.map (fun i => i.metadata.name)

/-- The annotation map every generated ingress starts from (the literal in
`NewRedirectIngress`): rewrite-target, permanent-redirect
(`http://<target>$request_uri`) and permanent-redirect-code. -/
def redirectAnnos (redirect : Redirect) : List (String × String) :=
  [ ("nginx.ingress.kubernetes.io/rewrite-target", "/")
  , ("nginx.ingress.kubernetes.io/permanent-redirect",
      "http://" ++ redirect.spec.target ++ "$request_uri")
  , ("nginx.ingress.kubernetes.io/permanent-redirect-code", toString redirect.spec.code) ]

/-- `NewRedirectIngress` (from `pkg/redirect`): take the existing ingress
(or the zero value when nil), overwrite its ObjectMeta and Spec wholesale
from the Redirect, and add the TLS block and TLS annotations when
`spec.tls.enable` is set. -/
def NewRedirectIngress (ing? : Option Ingress) (redirect : Redirect) : Ingress :=
  let ing := match ing? with
    | none => emptyIngress
    | some i => i
  let ing := { ing with metadata :=
    { name := redirect.name
    , nspace := redirect.nspace
    , labels := GetLabelsForRedirect redirect.name
    , annos := redirectAnnos redirect
    , ownerRefs := [] } }
  let ing := { ing with spec :=
    { ingressClassName := some redirect.spec.ingressClassName
    , rules :=
      [ { host := redirect.spec.source
        , paths := [ { path := "/", pathType := "Prefix"
                     , backend := { serviceName := "http-svc", servicePort := 80 } } ] } ]
    , tls := [] } }
  if redirect.spec.tls.enable then
    { ing with
      spec := { ing.spec with tls :=
        [ { hosts := [redirect.spec.source]
          , secretName := replaceAllChar redirect.spec.source '.' '-' ++ "-redirect-secret" } ] }
      , metadata := { ing.metadata with
          annos := redirect.spec.tls.annos.foldl (fun m p => mapSet m p.1 p.2) ing.metadata.annos } }
  else ing

/-! ## The Redirect reconciler (`controllers/redirect_controller.go`)

The cluster is modelled as the lists of Redirect and Ingress objects; the
fallibility of the store calls the reconciler makes is modelled by a
`Behavior` record of error-injection flags (a `true` flag makes the
corresponding call fail with a transient store error). -/

/-- The cluster state the reconciler reads and writes. -/
structure RWorld where
  redirects : List Redirect
  ingresses : List Ingress
deriving Repr, DecidableEq

/-- Error injection for the reconciler's store calls. -/
structure Behavior where
  getIngressFail : Bool
  createFail : Bool
  updateFail : Bool
  listFail : Bool
  statusFail : Bool
deriving Repr, DecidableEq

/-- The failure-free store behavior. -/
def okBehavior : Behavior :=
  { getIngressFail := false, createFail := false, updateFail := false
  , listFail := false, statusFail := false }

/-- Fetch a Redirect by namespaced name (`RedirectClient.GetNamespaced`);
`none` is the store's NotFound. -/
def getRedirect (w : RWorld) (name nspace : String) : Option Redirect :=
  w.redirects.find? (fun r => r.name = name && r.nspace = nspace)

/-- Fetch an ingress by namespaced name (`r.client.Get`). -/
def findIngress (l : List Ingress) (name nspace : String) : Option Ingress :=
  l.find? (fun i => i.metadata.name = name && i.metadata.nspace = nspace)

/-- `ctrl.SetControllerReference(redirect, ingress, scheme)`: record the
Redirect as the controlling owner of the ingress. -/
def setControllerReference (redirect : Redirect) (ing : Ingress) : Ingress :=
  { ing with metadata := { ing.metadata with ownerRefs := [(redirect.name, redirect.nspace)] } }

/-- `r.client.Create` for an ingress: append to the store. -/
def createIngress (w : RWorld) (ing : Ingress) : RWorld :=
  { w with ingresses := w.ingresses ++ [ing] }

/-- `r.client.Update` for an ingress: replace the stored object of the same
namespaced name. -/
def updateIngress (w : RWorld) (ing : Ingress) : RWorld :=
  { w with ingresses := w.ingresses.map (fun i =>
      if i.metadata.name = ing.metadata.name && i.metadata.nspace = ing.metadata.nspace
      then ing else i) }

/-- Does an ingress carry every label of the selector (the semantics of
`client.MatchingLabels`)? -/
def matchesLabels (sel : List (String × String)) (i : Ingress) : Bool :=
  sel.all (fun kv => List.lookup kv.1 i.metadata.labels = some kv.2)

/-- `r.client.List` with `client.InNamespace` and `client.MatchingLabels`:
the stored ingresses of that namespace carrying all selector labels, in
store order. -/
def listIngresses (w : RWorld) (nspace : String) (sel : List (String × String)) : List Ingress :=
  w.ingresses.filter (fun i => i.metadata.nspace = nspace && matchesLabels sel i)

/-- `r.client.Status().Update` for a Redirect: replace the status of the
stored object of the same namespaced name. -/
def updateRedirectStatus (w : RWorld) (r : Redirect) : RWorld :=
  { w with redirects := w.redirects.map (fun x =>
      if x.name = r.name && x.nspace = r.nspace then { x with status := r.status } else x) }

/-- Go map read `m[k]` on a `map[string]string`: the stored value, or the
zero value `""` when absent. -/
def mapGetD (m : List (String × String)) (k : String) : String :=
  (List.lookup k m).getD ""

/-- `RedirectReconciler.upsertRedirectIngress`: fetch the existing ingress
(into a zero-value `&networkingv1.Ingress{}` that stays zero on error),
synthesize the desired state from it, set the owner reference, create when
the fetch said NotFound, propagate other fetch errors, and finally update.
Returns the synthesized ingress on success, `nil` plus the error
otherwise. -/
def upsertRedirectIngress (b : Behavior) (w : RWorld) (redirect : Redirect) :
    Except Err Ingress × RWorld :=
  let fetched : Except Err Ingress :=
    if b.getIngressFail then .error (.transient "get ingress")
    else match findIngress w.ingresses redirect.name redirect.nspace with
      | some i => .ok i
      | none => .error .notFound
  let existing : Ingress := match fetched with
    | .ok i => i
    | .error _ => emptyIngress
  let ingress := NewRedirectIngress (some existing) redirect
  let ingress := setControllerReference redirect ingress
  match fetched with
  | .error .notFound =>
    if b.createFail then (.error (.transient "create ingress"), w)
    else
      let w := createIngress w ingress
      if b.updateFail then (.error (.transient "update ingress"), w)
      else (.ok ingress, updateIngress w ingress)
  | .error e => (.error e, w)
  | .ok _ =>
    if b.updateFail then (.error (.transient "update ingress"), w)
    else (.ok ingress, updateIngress w ingress)

/-- The outcome of one reconciliation pass: a normal return (`ok` or an
error), or a runtime panic (a nil-pointer dereference). -/
inductive RecOutcome where
  | ok
  | err (e : Err)
  | panicked
deriving Repr, DecidableEq

/-- `RedirectReconciler.Reconcile`, one pass for the namespaced name:
fetch the Redirect (NotFound is a successful no-op); upsert the generated
ingress, where a failure is only recorded (no early return); list the
ingresses selected by `GetLabelsForRedirect`; derive
`status.ingressName` and `status.target` — the latter by reading the
permanent-redirect annotation of the upserted ingress, which is a nil
dereference (panic) when the upsert failed; finally write the status. -/
def Reconcile (b : Behavior) (w : RWorld) (name nspace : String) : RecOutcome × RWorld :=
  match getRedirect w name nspace with
  | none => (.ok, w)
  | some redirect =>
    let (upserted, w) := upsertRedirectIngress b w redirect
    if b.listFail then (.err (.transient "list ingresses"), w)
    else
      let items := listIngresses w redirect.nspace (GetLabelsForRedirect redirect.name)
      match upserted with
      | .error _ => (.panicked, w)
      | .ok ingress =>
        let redirect := { redirect with status :=
          { ingressName := GetIngressNames items
          , target := mapGetD ingress.metadata.annos "nginx.ingress.kubernetes.io/permanent-redirect" } }
        if b.statusFail then (.err (.transient "status update"), w)
        else (.ok, updateRedirectStatus w redirect)

/-! ## The bearer-token gate of the HTTP handlers
(`pkg/controller/handle_*_shortlink.go` and `helper.go`) -/

/-- `strings.TrimPrefix(s, p)`: `s` without the leading `p`, or `s`
unchanged when `s` does not start with `p` (strings as character
sequences). -/
def trimPre (s p : String) : String :=
  if List.isPrefixOf p.data s.data then ⟨s.data.drop p.data.length⟩ else s

/-- The token extraction every handler performs on the `Authorization`
header value: trim a leading `"Bearer"`, then a leading `"token"`
(each without a trailing space). -/
def extractBearerToken (header : String) : String :=
  trimPre (trimPre header "Bearer") "token"

/-- Following the spec's words (section 6), for comparison with
`extractBearerToken`: strip a `"Bearer "` or `"token "` prefix (with the
separating space) from the header. -/
def specBearerTokenOfHeader (header : String) : String :=
  trimPre (trimPre header "Bearer ") "token "

/-- What a handler does before it can touch the object store, translated
from the common prologue of the `Handle*ShortLink` handlers: read the
`Authorization` header (`""` when absent), extract the token, return 401
when it is empty, then resolve the token against the identity provider
(`getGitHubUserInfo`), returning 401 on failure. `ok login` means the
request proceeds to the `ShortlinkClientAuth` store layer as that user;
an error result means the handler returned before any store access. -/
def handlerAuthGate (authHeader : String) (resolve : String → Except String String) :
    Except Int String :=
  let bearerToken := extractBearerToken authHeader
  if bearerToken.length = 0 then .error 401
  else match resolve bearerToken with
    | .error _ => .error 401
    | .ok login => .ok login

/-! ## Decidability of result comparison -/

/-- Results (`Except`) of the modelled operations can be compared. -/
instance instDecEqExcept {ε α : Type} [DecidableEq ε] [DecidableEq α] :
    DecidableEq (Except ε α) := fun x y =>
  match x, y with
  | .ok a, .ok b => if h : a = b then .isTrue (by simp [h]) else .isFalse (by simp [h])
  | .error a, .error b => if h : a = b then .isTrue (by simp [h]) else .isFalse (by simp [h])
  | .ok _, .error _ => .isFalse (by simp)
  | .error _, .ok _ => .isFalse (by simp)

/-! ## Concrete fixtures used by witnesses and counterexamples -/

/-- A shortlink owned by alice with no co-owners (spec section 8's
scenario). -/
def slHome : ShortLink :=
  { name := "home"
  , spec := { target := "example.com/page", redirectAfter := 0, code := 307
            , owner := "alice", coOwners := [] }
  , status := { count := 0, changedBy := "" } }

/-- A store holding exactly `slHome`. -/
def stHome : Store := ⟨[slHome]⟩

/-- The Redirect of spec section 8's scenario: `old.example.com` to
`new.example.com`, code 308, TLS disabled. -/
def rFoo : Redirect :=
  { name := "foo", nspace := "ns"
  , spec := { source := "old.example.com", target := "new.example.com", code := 308
            , tls := { enable := false, annos := [] }, ingressClassName := "nginx" }
  , status := { target := "", ingressName := [] } }

/-- A Redirect with TLS enabled and two TLS annotations, one of which
collides with the generated permanent-redirect annotation. -/
def rTls : Redirect :=
  { name := "sec", nspace := "ns"
  , spec := { source := "tls.example.com", target := "safe.example.com", code := 308
            , tls := { enable := true
                     , annos := [("cert-manager.io/cluster-issuer", "letsencrypt")
                                 , ("nginx.ingress.kubernetes.io/permanent-redirect", "http://attacker$request_uri")] }
            , ingressClassName := "nginx" }
  , status := { target := "", ingressName := [] } }

/-- A pre-existing ingress in namespace `ns` named `zzz` carrying exactly
the labels `GetLabelsForRedirect "foo"`. -/
def zIng : Ingress :=
  { metadata := { name := "zzz", nspace := "ns"
                , labels := [("app", "urlshortener"), ("redirect", "foo")]
                , annos := [], ownerRefs := [] }
  , spec := { ingressClassName := none, rules := [], tls := [] }
  , residualStatus := [] }

/-- The behavior in which the ingress update call fails (a transient store
error) and every other call succeeds. -/
def updateFailBehavior : Behavior :=
  { getIngressFail := false, createFail := false, updateFail := true
  , listFail := false, statusFail := false }

/-! ## The synthesized metadata and spec do not depend on the existing
ingress -/

/-- `NewRedirectIngress` overwrites `ObjectMeta` wholesale, so the
resulting metadata does not depend on the `existing` argument. -/
theorem newRedirectIngress_metadata_const (i? : Option Ingress) (r : Redirect) :
    (NewRedirectIngress i? r).metadata = (NewRedirectIngress none r).metadata := by
  cases i? with
  | none => rfl
  | some i =>
    by_cases h : r.spec.tls.enable = true <;>
      simp only [NewRedirectIngress, h, if_true, if_false, Bool.false_eq_true, ite_false, ite_true]

/-- `NewRedirectIngress` overwrites `Spec` wholesale, so the resulting
spec does not depend on the `existing` argument. -/
theorem newRedirectIngress_spec_const (i? : Option Ingress) (r : Redirect) :
    (NewRedirectIngress i? r).spec = (NewRedirectIngress none r).spec := by
  cases i? with
  | none => rfl
  | some i =>
    by_cases h : r.spec.tls.enable = true <;>
      simp only [NewRedirectIngress, h, if_true, if_false, Bool.false_eq_true, ite_false, ite_true]

/-- C6: ingress synthesis is idempotent and deterministic — feeding the
synthesizer's own output back as the existing ingress yields the same
metadata and spec as synthesizing from nothing, and the function is a pure
function of the Redirect, so two calls with the same Redirect agree. -/
theorem synthesis_idempotent (r : Redirect) :
    (NewRedirectIngress (some (NewRedirectIngress none r)) r).metadata
      = (NewRedirectIngress none r).metadata ∧
    (NewRedirectIngress (some (NewRedirectIngress none r)) r).spec
      = (NewRedirectIngress none r).spec :=
  ⟨newRedirectIngress_metadata_const _ r, newRedirectIngress_spec_const _ r⟩

/-- C10: the synthesized metadata and spec are independent of the
previously-existing ingress argument — for any two existing values the
outputs agree on the whole ObjectMeta (name, namespace, labels,
annotations, owner references) and the whole ingress spec, so nothing of a
pre-existing ingress's labels, annotations, rules or TLS entries survives
into the synthesized state. -/
theorem synthesis_independent_of_existing (r : Redirect) (i₁ i₂ : Option Ingress) :
    (NewRedirectIngress i₁ r).metadata = (NewRedirectIngress i₂ r).metadata ∧
    (NewRedirectIngress i₁ r).spec = (NewRedirectIngress i₂ r).spec :=
  ⟨(newRedirectIngress_metadata_const i₁ r).trans (newRedirectIngress_metadata_const i₂ r).symm,
   (newRedirectIngress_spec_const i₁ r).trans (newRedirectIngress_spec_const i₂ r).symm⟩

/-! ## Association-map lemmas for the TLS annotation merge -/

/-- Looking up the key just set yields the new value. -/
theorem lookup_mapSet_self (m : List (String × String)) (k v : String) :
    List.lookup k (mapSet m k v) = some v := by
  induction m with
  | nil => simp [mapSet, List.lookup]
  | cons p rest ih =>
    by_cases h : p.1 = k
    · simp [mapSet, h, List.lookup]
    · have h' : (k == p.1) = false := by
        simp only [beq_eq_false_iff_ne, ne_eq]
        exact fun hh => h hh.symm
      simp [mapSet, h, List.lookup, h', ih]

/-- Setting one key does not change the lookup of another. -/
theorem lookup_mapSet_ne (m : List (String × String)) (k v k' : String) (hk : k' ≠ k) :
    List.lookup k' (mapSet m k v) = List.lookup k' m := by
  induction m with
  | nil =>
    have h' : (k' == k) = false := by simp [hk]
    simp [mapSet, List.lookup, h']
  | cons p rest ih =>
    by_cases h : p.1 = k
    · have h' : (k' == k) = false := by simp [hk]
      simp [mapSet, h, List.lookup, h', h ▸ h']
    · simp only [mapSet, h, if_false, ite_false]
      cases hkp : (k' == p.1) <;> simp [List.lookup, hkp, ih]

/-- A key outside the key set of an association list looks up to `none`. -/
theorem lookup_eq_none_of_not_mem_keys (l : List (String × String)) (k : String)
    (h : k ∉ l.map Prod.fst) : List.lookup k l = none := by
  induction l with
  | nil => rfl
  | cons p rest ih =>
    simp only [List.map_cons, List.mem_cons, not_or] at h
    have h' : (k == p.1) = false := by simp [h.1]
    simp [List.lookup, h', ih h.2]

/-- Folding `mapSet` over bindings none of which carries the key leaves
that key's lookup unchanged. -/
theorem lookup_foldl_mapSet_of_none (l : List (String × String)) (k : String)
    (h : List.lookup k l = none) (base : List (String × String)) :
    List.lookup k (l.foldl (fun m p => mapSet m p.1 p.2) base) = List.lookup k base := by
  induction l generalizing base with
  | nil => rfl
  | cons p rest ih =>
    rw [List.foldl_cons]
    cases hkp : (k == p.1) with
    | true => simp [List.lookup, hkp] at h
    | false =>
      simp only [List.lookup, hkp] at h
      rw [ih h, lookup_mapSet_ne]
      simpa using hkp

/-- Folding `mapSet` over bindings with pairwise-distinct keys makes the
bound keys look up to their bound values (the merge wins on collision with
the base map). -/
theorem lookup_foldl_mapSet_of_some (l : List (String × String)) (k v : String)
    (hnd : (l.map Prod.fst).Nodup) (h : List.lookup k l = some v)
    (base : List (String × String)) :
    List.lookup k (l.foldl (fun m p => mapSet m p.1 p.2) base) = some v := by
  induction l generalizing base with
  | nil => simp [List.lookup] at h
  | cons p rest ih =>
    rw [List.foldl_cons]
    simp only [List.map_cons, List.nodup_cons] at hnd
    cases hkp : (k == p.1) with
    | true =>
      have hk : k = p.1 := by simpa using hkp
      simp only [List.lookup, hkp] at h
      have hrest : List.lookup k rest = none := by
        apply lookup_eq_none_of_not_mem_keys
        rw [hk]
        exact hnd.1
      rw [lookup_foldl_mapSet_of_none rest k hrest, hk, lookup_mapSet_self, h]
    | false =>
      simp only [List.lookup, hkp] at h
      exact ih hnd.2 h _

/-! ## The TLS toggle of `NewRedirectIngress` -/

/-- With TLS enabled, the synthesized spec carries exactly one TLS entry:
host list `[source]` and the secret name derived from the source. -/
theorem newRedirectIngress_tls_of_enable (i? : Option Ingress) (r : Redirect)
    (h : r.spec.tls.enable = true) :
    (NewRedirectIngress i? r).spec.tls =
      [{ hosts := [r.spec.source]
       , secretName := replaceAllChar r.spec.source '.' '-' ++ "-redirect-secret" }] := by
  rw [newRedirectIngress_spec_const]
  simp [NewRedirectIngress, h]

/-- With TLS disabled, the synthesized spec carries no TLS entry. -/
theorem newRedirectIngress_tls_of_not_enable (i? : Option Ingress) (r : Redirect)
    (h : r.spec.tls.enable = false) :
    (NewRedirectIngress i? r).spec.tls = [] := by
  rw [newRedirectIngress_spec_const]
  simp [NewRedirectIngress, h]

/-- With TLS enabled, the synthesized annotation map is the base map with
every TLS annotation folded in. -/
theorem newRedirectIngress_annos_of_enable (i? : Option Ingress) (r : Redirect)
    (h : r.spec.tls.enable = true) :
    (NewRedirectIngress i? r).metadata.annos =
      r.spec.tls.annos.foldl (fun m p => mapSet m p.1 p.2) (redirectAnnos r) := by
  rw [newRedirectIngress_metadata_const]
  simp [NewRedirectIngress, h]

/-- With TLS disabled, the synthesized annotation map is exactly the base
map. -/
theorem newRedirectIngress_annos_of_not_enable (i? : Option Ingress) (r : Redirect)
    (h : r.spec.tls.enable = false) :
    (NewRedirectIngress i? r).metadata.annos = redirectAnnos r := by
  rw [newRedirectIngress_metadata_const]
  simp [NewRedirectIngress, h]

/-- C7: the synthesized ingress contains a TLS block iff `spec.tls.enable`
(independently of the existing ingress); when present, the block's host
list is `[source]` and its secret name is the source with `.` replaced by
`-`, suffixed `-redirect-secret`; the TLS annotation entries are merged
into the annotation map and win on key collision (keys of a Go map are
pairwise distinct, hence the Nodup hypothesis), while unmentioned keys
keep their base values. -/
theorem tls_toggle_secret_and_merge (i? : Option Ingress) (r : Redirect) :
    ((NewRedirectIngress i? r).spec.tls ≠ [] ↔ r.spec.tls.enable = true) ∧
    (r.spec.tls.enable = true →
      (NewRedirectIngress i? r).spec.tls =
        [{ hosts := [r.spec.source]
         , secretName := replaceAllChar r.spec.source '.' '-' ++ "-redirect-secret" }]) ∧
    (r.spec.tls.enable = false → (NewRedirectIngress i? r).spec.tls = []) ∧
    (r.spec.tls.enable = true → (r.spec.tls.annos.map Prod.fst).Nodup →
      ∀ k v, List.lookup k r.spec.tls.annos = some v →
        List.lookup k (NewRedirectIngress i? r).metadata.annos = some v) ∧
    (r.spec.tls.enable = true →
      ∀ k, List.lookup k r.spec.tls.annos = none →
        List.lookup k (NewRedirectIngress i? r).metadata.annos = List.lookup k (redirectAnnos r)) := by
  refine ⟨?_, ?_, ?_, ?_, ?_⟩
  · cases he : r.spec.tls.enable
    · simp [newRedirectIngress_tls_of_not_enable i? r he]
    · simp [newRedirectIngress_tls_of_enable i? r he]
  · intro he
    exact newRedirectIngress_tls_of_enable i? r he
  · intro he
    exact newRedirectIngress_tls_of_not_enable i? r he
  · intro he hnd k v hk
    rw [newRedirectIngress_annos_of_enable i? r he]
    exact lookup_foldl_mapSet_of_some _ k v hnd hk _
  · intro he k hk
    rw [newRedirectIngress_annos_of_enable i? r he]
    exact lookup_foldl_mapSet_of_none _ k hk _

/-- Witness for C7: at the concrete Redirect `rTls` the TLS block is the
expected singleton, the TLS annotation `cert-manager.io/cluster-issuer`
appears in the final map, the colliding TLS annotation overrides the
generated permanent-redirect value, and at `rFoo` (TLS disabled) no TLS
block is emitted. -/
theorem tls_toggle_secret_and_merge_witness :
    (NewRedirectIngress none rTls).spec.tls =
      [{ hosts := ["tls.example.com"]
       , secretName := replaceAllChar "tls.example.com" '.' '-' ++ "-redirect-secret" }] ∧
    List.lookup "cert-manager.io/cluster-issuer" (NewRedirectIngress none rTls).metadata.annos
      = some "letsencrypt" ∧
    List.lookup "nginx.ingress.kubernetes.io/permanent-redirect"
        (NewRedirectIngress none rTls).metadata.annos = some "http://attacker$request_uri" ∧
    (NewRedirectIngress none rFoo).spec.tls = [] := by
  refine ⟨?_, ?_, ?_, ?_⟩
  · exact (tls_toggle_secret_and_merge none rTls).2.1 rfl
  · exact (tls_toggle_secret_and_merge none rTls).2.2.2.1 rfl (by decide) _ _ (by decide)
  · exact (tls_toggle_secret_and_merge none rTls).2.2.2.1 rfl (by decide) _ _ (by decide)
  · exact (tls_toggle_secret_and_merge none rFoo).2.2.1 rfl

/-! ## The ownership gate of the authorization wrapper -/

/-- A shortlink whose input spec already names a different owner, used to
exercise the owner overwrite in Create. -/
def slMal : ShortLink :=
  { name := "mal"
  , spec := { target := "x.example.com", redirectAfter := 0, code := 307
            , owner := "mallory", coOwners := [] }
  , status := { count := 0, changedBy := "" } }

/-- C1 (amended): single-object operations gate on the ownership
predicate, but the unauthorized mode of failure is a silent nil: Get
propagates fetch errors, returns the object when `IsOwnedBy` holds and
returns `ok none` (a nil result and nil error, not an AuthorizationError)
when it does not; Delete deletes exactly when `IsOwnedBy` holds and
returns a nil error leaving the store untouched when it does not. -/
theorem ownership_gate_get_delete (st : Store) (username nm : String) :
    (∀ s, clientGet st nm = .ok s →
       authGet st username nm = .ok (if s.IsOwnedBy username then some s else none)) ∧
    (∀ e, clientGet st nm = .error e → authGet st username nm = .error e) ∧
    (∀ s : ShortLink, s.IsOwnedBy username = false → authDelete st username s = (.ok (), st)) ∧
    (∀ s : ShortLink, s.IsOwnedBy username = true → authDelete st username s = clientDelete st s) := by
  refine ⟨?_, ?_, ?_, ?_⟩
  · intro s hs
    unfold authGet
    rw [hs]
    cases h : s.IsOwnedBy username <;> simp [h]
  · intro e he
    unfold authGet
    rw [he]
  · intro s hs
    unfold authDelete
    simp [hs]
  · intro s hs
    unfold authDelete
    simp [hs]

/-- Witness for C1 at the alice-owned shortlink: bob's Get yields
`ok none`, alice's Get yields the object, bob's Delete leaves the store
unchanged with a nil error. -/
theorem ownership_gate_get_delete_witness :
    authGet stHome "bob" "home" = .ok none ∧
    authGet stHome "alice" "home" = .ok (some slHome) ∧
    authDelete stHome "bob" slHome = (.ok (), stHome) := by
  refine ⟨?_, ?_, ?_⟩
  · have h := (ownership_gate_get_delete stHome "bob" "home").1 slHome (by decide)
    rw [h]
    decide
  · have h := (ownership_gate_get_delete stHome "alice" "home").1 slHome (by decide)
    rw [h]
    decide
  · exact (ownership_gate_get_delete stHome "bob" "home").2.2.1 slHome (by decide)

/-- C1 counterexample: with the store holding the alice-owned `slHome`
and caller bob (for whom the ownership predicate is false), the
unauthorized Get returns an `ok` nil result — not an error of any kind —
and the unauthorized Delete returns an `ok` nil error; the claim's
"fails with an AuthorizationError (never silently returns a nil result or
a nil error)" is therefore false on the code. -/
theorem ownership_gate_nil_counterexample :
    slHome.IsOwnedBy "bob" = false ∧
    authGet stHome "bob" "home" = .ok none ∧
    authDelete stHome "bob" slHome = (.ok (), stHome) := by
  decide

/-- C4: `Create` forces ownership — on success the stored list is the old
list plus the input object with `spec.owner` overwritten by the caller; on
failure the store is unchanged; and every object in the resulting store
either pre-existed or carries the caller as owner. -/
theorem create_forces_ownership (st : Store) (username : String) (s : ShortLink) :
    ((authCreate st username s).1 = .ok () →
      (authCreate st username s).2.items
        = st.items ++ [{ s with spec := { s.spec with owner := username } }]) ∧
    ((authCreate st username s).1 ≠ .ok () → (authCreate st username s).2 = st) ∧
    (∀ x ∈ (authCreate st username s).2.items, x ∈ st.items ∨ x.spec.owner = username) := by
  unfold authCreate clientCreate
  dsimp only
  cases h : st.find s.name with
  | some y =>
    refine ⟨by simp, fun _ => rfl, ?_⟩
    intro x hx
    exact Or.inl hx
  | none =>
    refine ⟨fun _ => rfl, by simp, ?_⟩
    intro x hx
    rcases List.mem_append.mp hx with hx | hx
    · exact Or.inl hx
    · simp only [List.mem_singleton] at hx
      subst hx
      exact Or.inr rfl

/-- Witness for C4: creating as bob a shortlink whose input spec names
mallory as owner stores it with owner bob. -/
theorem create_forces_ownership_witness :
    (authCreate stHome "bob" slMal).2.items
      = stHome.items ++ [{ slMal with spec := { slMal.spec with owner := "bob" } }] :=
  (create_forces_ownership stHome "bob" slMal).1 (by decide)

/-! ## List filtering -/

/-- The Go loop of `ShortlinkClientAuth.List` — fold an
append-if-owned — is `List.filter`. -/
theorem foldl_append_filter (l : List ShortLink) (u : String) (acc : List ShortLink) :
    l.foldl (fun acc s => if s.IsOwnedBy u then acc ++ [s] else acc) acc
      = acc ++ l.filter (fun s => s.IsOwnedBy u) := by
  induction l generalizing acc with
  | nil => simp
  | cons s rest ih =>
    by_cases h : s.IsOwnedBy u = true <;>
      simp [List.foldl_cons, h, ih, List.filter_cons]

/-- C5: `List` returns exactly the owned sublist — it succeeds with the
filter of the underlying items by the ownership predicate, which is an
order-preserving sublist whose members are exactly the stored items the
caller owns (an empty result is still a success). -/
theorem list_filters_by_ownership (st : Store) (username : String) :
    authList st username = .ok (st.items.filter (fun s => s.IsOwnedBy username)) ∧
    List.Sublist (st.items.filter (fun s => s.IsOwnedBy username)) st.items ∧
    (∀ s, s ∈ st.items.filter (fun s => s.IsOwnedBy username)
      ↔ s ∈ st.items ∧ s.IsOwnedBy username = true) := by
  refine ⟨?_, List.filter_sublist _, ?_⟩
  · show Except.ok (st.items.foldl (fun acc s => if s.IsOwnedBy username then acc ++ [s] else acc) [])
      = Except.ok (st.items.filter (fun s => s.IsOwnedBy username))
    rw [foldl_append_filter]
    rfl
  · intro s
    simp [List.mem_filter]

/-- Witness for C5: alice's list is exactly her shortlink; bob's list is
empty yet still a success. -/
theorem list_filters_by_ownership_witness :
    authList stHome "alice" = .ok [slHome] ∧ authList stHome "bob" = .ok [] := by
  constructor
  · rw [(list_filters_by_ownership stHome "alice").1]
    decide
  · rw [(list_filters_by_ownership stHome "bob").1]
    decide

/-! ## Update and the auto-co-ownership policy -/

/-- `find?` commutes with a map that does not change the predicate. -/
theorem find?_map_of_pred_inv {α : Type} (l : List α) (f : α → α) (p : α → Bool)
    (hf : ∀ x, p (f x) = p x) : (l.map f).find? p = (l.find? p).map f := by
  induction l with
  | nil => rfl
  | cons x rest ih =>
    cases hx : p x with
    | true =>
      rw [List.map_cons, List.find?_cons_of_pos _ (by rw [hf]; exact hx),
        List.find?_cons_of_pos _ hx]
      rfl
    | false =>
      rw [List.map_cons, List.find?_cons_of_neg _ (by simp [hf, hx]),
        List.find?_cons_of_neg _ (by simp [hx]), ih]

/-- C2 (amended): an update by a caller who is neither the owner nor a
co-owner does not fail — the wrapper first adds the caller to
`spec.coOwners`, then persists the modified spec, and finally persists the
status with `changedBy` set to the caller through the separate status
write; the stored object of that name ends with the enlarged co-owner
list, the caller as `changedBy`, and no AuthorizationError is produced. -/
theorem update_auto_grants_coownership (st : Store) (username : String) (s x : ShortLink)
    (hx : st.find s.name = some x)
    (ho : s.spec.owner ≠ username) (hc : ¬ s.spec.coOwners.contains username) :
    authUpdate st username s =
      (.ok (), ⟨st.items.map (fun y => if y.name = s.name then
        { y with
          spec := { s.spec with coOwners := s.spec.coOwners ++ [username] }
        , status := { s.status with changedBy := username } } else y)⟩) := by
  unfold authUpdate
  rw [if_pos ⟨ho, hc⟩]
  unfold clientUpdate
  dsimp only
  rw [show st.find s.name = some x from hx]
  unfold clientUpdateStatus
  dsimp only
  have hfind :
      Store.find ⟨st.items.map (fun y => if y.name = s.name then
          { y with spec := { s.spec with coOwners := s.spec.coOwners ++ [username] } } else y)⟩
        s.name
      = some (if x.name = s.name then
          { x with spec := { s.spec with coOwners := s.spec.coOwners ++ [username] } } else x) := by
    unfold Store.find
    rw [find?_map_of_pred_inv _ _ _ (fun y => by
      by_cases hy : y.name = s.name <;> simp [hy])]
    rw [show st.items.find? (fun y => y.name = s.name) = some x from hx]
    rfl
  rw [hfind]
  have hxname : x.name = s.name := by
    have := List.find?_some hx
    simpa using this
  rw [if_pos hxname]
  rw [Prod.mk.injEq]
  refine ⟨rfl, ?_⟩
  rw [Store.mk.injEq, List.map_map]
  apply List.map_congr_left
  intro y _
  by_cases hy : y.name = s.name <;> simp [Function.comp, hy]

/-- Witness for C2: carol (not an owner) updates alice's shortlink; the
call succeeds and the stored object gains carol as co-owner and as
`changedBy`. -/
theorem update_auto_grants_coownership_witness :
    authUpdate stHome "carol" slHome =
      (.ok (), ⟨[{ slHome with
        spec := { slHome.spec with coOwners := ["carol"] }
      , status := { slHome.status with changedBy := "carol" } }]⟩) := by
  rw [update_auto_grants_coownership stHome "carol" slHome slHome (by decide) (by decide) (by decide)]
  decide

/-- C2 counterexample: at the alice-owned shortlink with empty co-owners,
`Update("carol", ...)` succeeds (no AuthorizationError) and the stored
spec is changed — carol is added to `spec.coOwners` — so the claim's
"fails with an AuthorizationError and leaves the stored spec unchanged"
is false on the code. -/
theorem update_reject_policy_counterexample :
    (authUpdate stHome "carol" slHome).1 = .ok () ∧
    (authUpdate stHome "carol" slHome).2.find "home" =
      some { slHome with
        spec := { slHome.spec with coOwners := ["carol"] }
      , status := { slHome.status with changedBy := "carol" } } ∧
    (authUpdate stHome "carol" slHome).2 ≠ stHome := by
  decide

/-! ## The bearer-token gate -/

/-- C9 counterexample: the handlers strip the bare word `"Bearer"` (and
`"token"`) without the separating space, so the header `"Bearer abc"`
yields the token `" abc"` — not the `"abc"` that stripping a
`"Bearer "` prefix (the spec's words, `specBearerTokenOfHeader`) would
yield. -/
theorem bearer_token_space_counterexample :
    extractBearerToken "Bearer abc" = " abc" ∧
    specBearerTokenOfHeader "Bearer abc" = "abc" ∧
    (" abc" : String) ≠ "abc" := by
  decide

/-- C9 (amended): the token is extracted by trimming the prefixes
`"Bearer"` and `"token"` (without the following space, which stays in the
token); whenever the extracted token is empty the handler returns 401
unauthorized immediately — for every identity resolver, hence before any
identity lookup or store access — and a request only reaches the store
layer (`ok` result) with a non-empty token accepted by the resolver. An
absent `Authorization` header reads as `""`, whose extracted token is
empty. -/
theorem empty_token_unauthorized (hd : String) (resolve : String → Except String String) :
    ((extractBearerToken hd).length = 0 → handlerAuthGate hd resolve = .error 401) ∧
    (∀ u, handlerAuthGate hd resolve = .ok u →
      (extractBearerToken hd).length ≠ 0 ∧ resolve (extractBearerToken hd) = .ok u) := by
  constructor
  · intro he
    unfold handlerAuthGate
    simp [he]
  · intro u hu
    unfold handlerAuthGate at hu
    by_cases he : (extractBearerToken hd).length = 0
    · simp [he] at hu
    · refine ⟨he, ?_⟩
      simp only [he, if_false, ite_false] at hu
      cases hr : resolve (extractBearerToken hd) with
      | error e =>
        rw [hr] at hu
        simp at hu
      | ok v =>
        rw [hr] at hu
        simpa using hu

/-- Witness for C9: the empty header (absent `Authorization`) is rejected
with 401 whatever the resolver would answer. -/
theorem empty_token_unauthorized_witness :
    handlerAuthGate "" (fun t => .ok t) = .error 401 :=
  (empty_token_unauthorized "" (fun t => .ok t)).1 (by decide)

/-! ## The reconciler's behavior when the ingress upsert fails -/

/-- C3: at a world holding the Redirect `rFoo` and its generated ingress,
with the ingress update call failing, `upsertRedirectIngress` returns the
transient error — but `Reconcile` does not abort with that error: it only
records it, proceeds to the ingress list, and then dereferences the nil
ingress while deriving `status.target`, so the pass ends in a nil-pointer
panic (`RecOutcome.panicked`) instead of returning the upsert error; the
status is never persisted, but by crash rather than by the claimed
abort-and-return. -/
theorem upsert_failure_panics :
    (upsertRedirectIngress updateFailBehavior ⟨[rFoo], [NewRedirectIngress none rFoo]⟩ rFoo).1
      = .error (.transient "update ingress") ∧
    Reconcile updateFailBehavior ⟨[rFoo], [NewRedirectIngress none rFoo]⟩ "foo" "ns"
      = (.panicked, ⟨[rFoo], [NewRedirectIngress none rFoo]⟩) := by
  decide

/-! ## Status derivation on the success path -/

/-- Setting the controller reference touches only `ownerRefs`. -/
theorem setControllerReference_annos (r : Redirect) (i : Ingress) :
    (setControllerReference r i).metadata.annos = i.metadata.annos := rfl

/-- On the failure-free behavior, the upsert returns the synthesized
ingress (with owner reference set) computed from some fetched existing
ingress, and does not touch the stored redirects. -/
theorem upsert_ok_shape (w : RWorld) (r : Redirect) :
    ∃ ex w₂, upsertRedirectIngress okBehavior w r
        = (.ok (setControllerReference r (NewRedirectIngress (some ex) r)), w₂)
      ∧ w₂.redirects = w.redirects
      ∧ w₂.ingresses = (updateIngress
          (if findIngress w.ingresses r.name r.nspace = none
           then createIngress w (setControllerReference r (NewRedirectIngress (some ex) r))
           else w)
          (setControllerReference r (NewRedirectIngress (some ex) r))).ingresses := by
  cases hf : findIngress w.ingresses r.name r.nspace with
  | some i =>
    refine ⟨i, updateIngress w (setControllerReference r (NewRedirectIngress (some i) r)),
      ?_, rfl, ?_⟩
    · simp [upsertRedirectIngress, okBehavior, hf]
    · simp [hf]
  | none =>
    refine ⟨emptyIngress,
      updateIngress (createIngress w (setControllerReference r (NewRedirectIngress (some emptyIngress) r)))
        (setControllerReference r (NewRedirectIngress (some emptyIngress) r)),
      ?_, rfl, ?_⟩
    · simp [upsertRedirectIngress, okBehavior, hf]
    · simp [hf]

/-- C8 (amended): a failure-free reconciliation pass succeeds and persists
exactly the derived status — `status.ingressName` is the name list, in
store order (no sorting is applied), of the ingresses in the Redirect's
namespace carrying the labels `GetLabelsForRedirect name`, and
`status.target` is the generated ingress's permanent-redirect annotation,
which equals `http://<target>$request_uri` whenever no TLS annotation
overrides that key. -/
theorem status_derivation (w : RWorld) (nm ns : String) (r : Redirect)
    (hr : getRedirect w nm ns = some r) :
    ∃ w', Reconcile okBehavior w nm ns = (.ok, w') ∧
      getRedirect w' nm ns = some { r with status :=
        { target := mapGetD (NewRedirectIngress none r).metadata.annos
            "nginx.ingress.kubernetes.io/permanent-redirect"
        , ingressName := GetIngressNames
            (listIngresses w' r.nspace (GetLabelsForRedirect r.name)) } } ∧
      (List.lookup "nginx.ingress.kubernetes.io/permanent-redirect" r.spec.tls.annos = none →
        mapGetD (NewRedirectIngress none r).metadata.annos
            "nginx.ingress.kubernetes.io/permanent-redirect"
          = "http://" ++ r.spec.target ++ "$request_uri") := by
  obtain ⟨ex, w₂, hup, hred, hing2⟩ := upsert_ok_shape w r
  have hannos : (setControllerReference r (NewRedirectIngress (some ex) r)).metadata.annos
      = (NewRedirectIngress none r).metadata.annos := by
    rw [setControllerReference_annos, newRedirectIngress_metadata_const]
  refine ⟨updateRedirectStatus w₂ { r with status :=
    { target := mapGetD (NewRedirectIngress none r).metadata.annos
        "nginx.ingress.kubernetes.io/permanent-redirect"
    , ingressName := GetIngressNames
        (listIngresses w₂ r.nspace (GetLabelsForRedirect r.name)) } }, ?_, ?_, ?_⟩
  · unfold Reconcile
    rw [hr]
    dsimp only
    rw [hup]
    simp [okBehavior, hannos]
  · have hf : ∀ x : Redirect,
        ((if x.name = r.name && x.nspace = r.nspace
          then { x with status :=
            { target := mapGetD (NewRedirectIngress none r).metadata.annos
                "nginx.ingress.kubernetes.io/permanent-redirect"
            , ingressName := GetIngressNames
                (listIngresses w₂ r.nspace (GetLabelsForRedirect r.name)) } }
          else x).name = nm && (if x.name = r.name && x.nspace = r.nspace
          then { x with status :=
            { target := mapGetD (NewRedirectIngress none r).metadata.annos
                "nginx.ingress.kubernetes.io/permanent-redirect"
            , ingressName := GetIngressNames
                (listIngresses w₂ r.nspace (GetLabelsForRedirect r.name)) } }
          else x).nspace = ns : Bool)
        = (x.name = nm && x.nspace = ns : Bool) := by
      intro x
      split <;> rfl
    unfold getRedirect at hr ⊢
    unfold updateRedirectStatus
    dsimp only
    rw [find?_map_of_pred_inv _ _ _ hf, hred, hr]
    simp
    rfl
  · intro hnone
    have k1 : ("nginx.ingress.kubernetes.io/permanent-redirect" ==
      "nginx.ingress.kubernetes.io/rewrite-target") = false := by decide
    have k2 : ("nginx.ingress.kubernetes.io/permanent-redirect" ==
      "nginx.ingress.kubernetes.io/permanent-redirect") = true := by decide
    cases he : r.spec.tls.enable with
    | false =>
      rw [show (NewRedirectIngress none r).metadata.annos = redirectAnnos r from
        newRedirectIngress_annos_of_not_enable none r he]
      simp [mapGetD, redirectAnnos, List.lookup, k1, k2]
    | true =>
      rw [newRedirectIngress_annos_of_enable none r he]
      unfold mapGetD
      rw [lookup_foldl_mapSet_of_none _ _ hnone]
      simp [redirectAnnos, List.lookup, k1, k2]

/-- Witness for C8: reconciling `rFoo` from a world with no ingresses
succeeds. -/
theorem status_derivation_witness :
    (Reconcile okBehavior ⟨[rFoo], []⟩ "foo" "ns").1 = RecOutcome.ok := by
  obtain ⟨w', h1, h2, h3⟩ := status_derivation ⟨[rFoo], []⟩ "foo" "ns" rFoo (by decide)
  rw [h1]

/-- Following the spec's words ("the sorted name list"): lexicographic
character order on strings, for stating sortedness of the name list. -/
def lexLe : List Char → List Char → Bool
  | [], _ => true
  | _ :: _, [] => false
  | a :: as, b :: bs => if a < b then true else if b < a then false else lexLe as bs

/-- C8 counterexample: with a pre-existing matching ingress named `zzz`
stored before the generated `foo`, the persisted `status.ingressName` is
`["zzz", "foo"]` — the store's list order — which is not sorted (the
sorted name list would be `["foo", "zzz"]`), so the claim's "equals the
sorted list of names" is false on the code. -/
theorem status_not_sorted_counterexample :
    ((Reconcile okBehavior ⟨[rFoo], [zIng]⟩ "foo" "ns").2.redirects.map
        (fun x => x.status.ingressName)) = [["zzz", "foo"]] ∧
    List.insertionSort (fun a b : String => lexLe a.data b.data = true) ["zzz", "foo"]
      = ["foo", "zzz"] ∧
    ¬ List.Sorted (fun a b : String => lexLe a.data b.data = true) ["zzz", "foo"] ∧
    (["zzz", "foo"] : List String) ≠ ["foo", "zzz"] := by
  decide

end Urlshortener
